import Mathlib

set_option maxRecDepth 100000

/-!
Verification development for the OBJ building colorizer
(`semantic_mapping.py`, Building Colorizer v2.0.0).

The embedding works over exact rationals: every numeric literal of the
source (0.01, 0.95, 0.1, 0.7, 0.5) is taken at its exact decimal value.
The source normalizes face normals by their Euclidean length; the length
is irrational in general, so the two threshold tests on the unit normal's
z component are expressed by the equivalent scale-invariant squared
comparisons (`absZGt`, `absZLt`).  All other arithmetic is translated
verbatim.
-/

namespace Colorizer

/-- A 3D point with rational coordinates; models one parsed vertex. -/
abbrev Vec3 := ℚ × ℚ × ℚ

def vx (v : Vec3) : ℚ := v.1
def vy (v : Vec3) : ℚ := v.2.1
def vz (v : Vec3) : ℚ := v.2.2

/-- Componentwise difference, models `v1 - v0` on numpy arrays. -/
def vsub (a b : Vec3) : Vec3 := (vx a - vx b, vy a - vy b, vz a - vz b)

/-- Cross product, models `np.cross`. -/
def cross (a b : Vec3) : Vec3 :=
  (vy a * vz b - vz a * vy b, vz a * vx b - vx a * vz b, vx a * vy b - vy a * vx b)

/-- Squared Euclidean norm. -/
def normSq (a : Vec3) : ℚ := vx a ^ 2 + vy a ^ 2 + vz a ^ 2

/-- Vertex lookup `vertices[idx]`; indices produced by the loader are
in range for well-formed input, the default is never read by the claims. -/
def vert (vs : List Vec3) (i : ℕ) : Vec3 := vs.getD i (0, 0, 0)

/-- The three semantic labels; models the keys of `COLORS`. -/
inductive Label where
  | Roof
  | Wall
  | Ground
deriving DecidableEq, Repr, Inhabited

/-! ## MeshAnalyzer.analyze_z_distribution

`np.histogram(z_values, bins=50)` over exact arithmetic: the edges are
`lo + i * (hi - lo) / 50` for `i = 0..50` where `[lo, hi]` is the data
range, widened to `[mn - 0.5, mx + 0.5]` when the range is empty
(numpy's degenerate-range rule); bucket `i < 49` is `[e_i, e_{i+1})`,
the last bucket is closed.  The scan `for i, count in enumerate(hist):
if count > max(hist) * 0.1: return bin_edges[i]` is `scanFirst`, and
`count > peak * 0.1` is cleared of its denominator as `10 * count > peak`.
-/

def z_lo (z : ℚ) (zs : List ℚ) : ℚ :=
  let mn := zs.foldl min z
  let mx := zs.foldl max z
  if mn = mx then mn - 1/2 else mn

def z_hi (z : ℚ) (zs : List ℚ) : ℚ :=
  let mn := zs.foldl min z
  let mx := zs.foldl max z
  if mn = mx then mx + 1/2 else mx

/-- Left edge of histogram bucket `i`; `bin_edges[i]`. -/
def z_edge (z : ℚ) (zs : List ℚ) (i : ℕ) : ℚ :=
  z_lo z zs + (z_hi z zs - z_lo z zs) * i / 50

/-- Count of elevations in histogram bucket `i`; `hist[i]`. -/
def z_count (z : ℚ) (zs : List ℚ) (i : ℕ) : ℕ :=
  if i + 1 = 50 then
    (z :: zs).countP fun w => decide (z_edge z zs i ≤ w ∧ w ≤ z_edge z zs 50)
  else
    (z :: zs).countP fun w => decide (z_edge z zs i ≤ w ∧ w < z_edge z zs (i + 1))

/-- Models `max(hist)`; numpy's max of the 50 counts (all nonnegative, so the
0 initial accumulator is neutral). -/
def z_peak (z : ℚ) (zs : List ℚ) : ℕ :=
  ((List.range 50).map (z_count z zs)).foldl max 0

/-- First index `i` in `[k, k + fuel)` with `p i = true`; models the
`for i, count in enumerate(hist)` early-return scan. -/
def scanFirst (p : ℕ → Bool) : ℕ → ℕ → Option ℕ
  | 0, _ => none
  | fuel + 1, k => if p k then some k else scanFirst p fuel (k + 1)

/-- Models `MeshAnalyzer.analyze_z_distribution`. -/
def analyze_z_distribution : List ℚ → ℚ
  | [] => 0
  | z :: zs =>
    match scanFirst (fun i => decide (10 * z_count z zs i > z_peak z zs)) 50 0 with
    | some i => z_edge z zs i
    | none => zs.foldl min z

/-! ## Geometry primitives and the rule-based classifier -/

/-- Models `MeshAnalyzer.get_face_centroid`: arithmetic mean of the face's
vertex positions (`np.mean(face_vertices, axis=0)`). -/
def get_face_centroid (vs : List Vec3) (face : List ℕ) : Vec3 :=
  let pts := face.map (vert vs)
  (((pts.map vx).sum) / pts.length,
   ((pts.map vy).sum) / pts.length,
   ((pts.map vz).sum) / pts.length)

/-- The raw cross product of the face's first three vertices,
`np.cross(v1 - v0, v2 - v0)` in `GeometryValidator.get_face_normal`. -/
def face_cross (vs : List Vec3) (face : List ℕ) : Vec3 :=
  cross (vsub (vert vs (face.getD 1 0)) (vert vs (face.getD 0 0)))
        (vsub (vert vs (face.getD 2 0)) (vert vs (face.getD 0 0)))

/-- Models `GeometryValidator.get_face_normal`.  The source returns
`normal / np.linalg.norm(normal)` in the nondegenerate branch; since the
norm is a positive scalar and every downstream use of the result is a
scale-invariant threshold test (`absZGt` / `absZLt` below), the
embedding returns the unnormalized vector there.  Both degenerate
branches return exactly `np.array([0, 0, 1])`. -/
def get_face_normal (vs : List Vec3) (face : List ℕ) : Vec3 :=
  if face.length < 3 then (0, 0, 1)
  else if face_cross vs face = ((0 : ℚ), (0 : ℚ), (0 : ℚ)) then (0, 0, 1)
  else face_cross vs face

/-- Holds iff `abs(u[2]) > c` for the unit vector `u = n / ‖n‖`, expressed without
the irrational norm: for `n ≠ 0` and `c ≥ 0`, `|n.z| / ‖n‖ > c ↔
n.z ^ 2 > c ^ 2 * ‖n‖ ^ 2`. -/
def absZGt (n : Vec3) (c : ℚ) : Bool :=
  decide (c ^ 2 * normSq n < vz n ^ 2)

/-- Holds iff `abs(u[2]) < c` for the unit vector `u = n / ‖n‖`, as `absZGt`. -/
def absZLt (n : Vec3) (c : ℚ) : Bool :=
  decide (vz n ^ 2 < c ^ 2 * normSq n)

/-- Mean z coordinate of the face's vertices,
`sum(face_z_coords) / len(face_z_coords)`. -/
def face_avg_z (vs : List Vec3) (face : List ℕ) : ℚ :=
  ((face.map fun i => vz (vert vs i)).sum) / face.length

/-- Models `GeometryValidator.validate_ground_classification` with the
instance tolerance (default 0.01). -/
def validate_ground_classification (tol : ℚ) (vs : List Vec3) (face : List ℕ)
    (gh : ℚ) : Bool :=
  if |face_avg_z vs face - gh| > tol then false
  else absZGt (get_face_normal vs face) (95 / 100)

/-- The `base_class` computed at the top of
`BuildingColorizer.classify_face_with_context`: Ground when the ground
validation passes, else Wall when `abs(normal[2]) < 0.1`, else Roof. -/
def base_label (tol : ℚ) (vs : List Vec3) (face : List ℕ) (gh : ℚ) : Label :=
  if validate_ground_classification tol vs face gh = true then Label.Ground
  else if absZLt (get_face_normal vs face) (1 / 10) = true then Label.Wall
  else Label.Roof

/-! ## Spatial index, neighbor lookup, context smoothing -/

/-- Grid cell key `tuple(np.floor(centroid / 0.5).astype(int))`. -/
def cell_key (c : Vec3) : ℤ × ℤ × ℤ :=
  (⌊vx c / (1/2)⌋, ⌊vy c / (1/2)⌋, ⌊vz c / (1/2)⌋)

/-- Append face index `i` to the bucket of key `k`
(`defaultdict(list)` insertion). -/
def add_bucket (idx : List ((ℤ × ℤ × ℤ) × List ℕ)) (k : ℤ × ℤ × ℤ) (i : ℕ) :
    List ((ℤ × ℤ × ℤ) × List ℕ) :=
  match idx with
  | [] => [(k, [i])]
  | (k', b) :: rest =>
    if k' = k then (k', b ++ [i]) :: rest else (k', b) :: add_bucket rest k i

/-- Models `BuildingColorizer.create_spatial_index`. -/
def create_spatial_index (vs : List Vec3) (faces : List (List ℕ)) :
    List ((ℤ × ℤ × ℤ) × List ℕ) :=
  faces.enum.foldl
    (fun idx p => add_bucket idx (cell_key (get_face_centroid vs p.2)) p.1) []

/-- Models `BuildingColorizer.get_neighboring_faces`: the source body is
`return []` with a `TODO: Implement proper neighbor finding` comment;
the spatial index argument is never consulted. -/
def get_neighboring_faces (face_idx : ℕ)
    (face_index : List ((ℤ × ℤ × ℤ) × List ℕ)) : List ℕ := []

/-- Models `max(set(neighbor_classes), key=neighbor_classes.count)`: the first
element, in iteration order, whose count is maximal.  The source
iterates a Python set whose order is implementation-defined but
deterministic; the embedding fixes first-occurrence order (the claims
below never depend on the tie order).  Python's `max` raises on an
empty collection; the branch is only reached on nonempty input, the
default is never read. -/
def most_common (l : List Label) : Label :=
  match l.foldl
      (fun best a =>
        match best with
        | none => some a
        | some b => if l.count a > l.count b then some a else some b)
      none with
  | some b => b
  | none => Label.Wall

/-- Models `BuildingColorizer.classify_face_with_context`.  The cache
parameter models `self.classification_cache` (a dict read through
`.get(n, base_class)`); the Bool result records whether
`self.stats['classification_changes']` was incremented.  The source
compares `neighbor_classes.count(most_common) > len(neighbors) * 0.7`;
with exact arithmetic this is `10 * count > 7 * len`.  (The source also
computes the face centroid here and discards it.) -/
def classify_face_with_context (tol : ℚ) (vs : List Vec3) (face : List ℕ)
    (gh : ℚ) (neighbors : List ℕ) (cache : List (ℕ × Label)) : Label × Bool :=
  let base := base_label tol vs face gh
  if neighbors.isEmpty then (base, false)
  else
    let neighbor_classes := neighbors.map fun n => (List.lookup n cache).getD base
    let mc := most_common neighbor_classes
    if mc ≠ base ∧ 10 * neighbor_classes.count mc > 7 * neighbors.length then
      (mc, true)
    else (base, false)

/-! ## BuildingColorizer.process_mesh -/

/-- The per-instance mutable state touched by one classification pass:
`self.classification_cache` and `self.stats['classification_changes']`. -/
structure MeshCtx where
  cache : List (ℕ × Label)
  changes : ℕ
deriving DecidableEq, Repr

/-- One iteration of the `for face_idx, face in enumerate(faces)` loop.
The source contains no assignment to `classification_cache`, so the
cache component is passed through unchanged. -/
def process_step (tol : ℚ) (vs : List Vec3) (gh : ℚ)
    (face_index : List ((ℤ × ℤ × ℤ) × List ℕ))
    (st : List Label × MeshCtx) (p : ℕ × List ℕ) : List Label × MeshCtx :=
  let neighbors := get_neighboring_faces p.1 face_index
  let r := classify_face_with_context tol vs p.2 gh neighbors st.2.cache
  (st.1 ++ [r.1],
   { cache := st.2.cache, changes := st.2.changes + (if r.2 then 1 else 0) })

/-- Models `BuildingColorizer.process_mesh`: ground estimation, spatial index
construction, then the per-face loop; returns the classification list,
the ground height, and the final instance state. -/
def process_mesh (tol : ℚ) (vs : List Vec3) (faces : List (List ℕ))
    (ctx : MeshCtx) : List Label × ℚ × MeshCtx :=
  let z_values := vs.map vz
  let gh := analyze_z_distribution z_values
  let face_index := create_spatial_index vs faces
  let r := faces.enum.foldl (process_step tol vs gh face_index) ([], ctx)
  (r.1, gh, r.2)

/-- The loop state of `process_mesh` just before face number `i` is
visited (the fold over the first `i` faces). -/
def process_upto (tol : ℚ) (vs : List Vec3) (faces : List (List ℕ))
    (ctx : MeshCtx) (i : ℕ) : List Label × MeshCtx :=
  let gh := analyze_z_distribution (vs.map vz)
  let face_index := create_spatial_index vs faces
  (faces.enum.take i).foldl (process_step tol vs gh face_index) ([], ctx)

/-! ## OBJ line model: loader and writer

One value of `ObjLine` models one line of an OBJ file, at the
granularity the source distinguishes them: `load_obj_file` reacts to
`#` comments, `v` lines and `f` lines, and `update_obj_file` reacts to
`f ` lines and to lines starting with `mtllib` / `usemtl`.  An `fline`
carries the written (1-based) vertex indices; per the loader, any
`/texture/normal` suffixes are already discarded. -/

inductive ObjLine where
  | vline (v : Vec3)
  | fline (idxs : List ℕ)
  | usemtlL (m : Label)
  | mtllibL
  | commentL
  | otherL
deriving DecidableEq, Repr

/-- Vertices collected by `load_obj_file`, in file order. -/
def parse_vertices : List ObjLine → List Vec3
  | [] => []
  | ObjLine.vline v :: rest => v :: parse_vertices rest
  | _ :: rest => parse_vertices rest

/-- Faces collected by `load_obj_file`: each written index is shifted
by one (`int(v.split('/')[0]) - 1`), and only faces with at least 3
indices are kept. -/
def parse_faces : List ObjLine → List (List ℕ)
  | [] => []
  | ObjLine.fline is :: rest =>
    if 3 ≤ is.length then (is.map fun k => k - 1) :: parse_faces rest
    else parse_faces rest
  | _ :: rest => parse_faces rest

/-- Number of `f ` lines in the input (the values `face_idx` runs over
in `update_obj_file`). -/
def face_count (ls : List ObjLine) : ℕ :=
  ls.countP fun l => match l with | ObjLine.fline _ => true | _ => false

/-- The body loop of `BuildingColorizer.update_obj_file`: copies every
line except `mtllib` / `usemtl` lines, and emits `usemtl
classifications[face_idx]` before an `f ` line whenever that label
differs from `current_material`.  The label list is consumed one entry
per `f ` line; the Bool is false when `classifications[face_idx]`
raises `IndexError` (labels exhausted), and the line list is then the
partial output written before the exception. -/
def update_lines_run : List ObjLine → List Label → Option Label →
    List ObjLine × Bool
  | [], _, _ => ([], true)
  | ObjLine.fline _ :: _, [], _ => ([], false)
  | ObjLine.fline is :: rest, m :: ms, cur =>
    let r := update_lines_run rest ms (some m)
    if some m = cur then (ObjLine.fline is :: r.1, r.2)
    else (ObjLine.usemtlL m :: ObjLine.fline is :: r.1, r.2)
  | ObjLine.mtllibL :: rest, ms, cur => update_lines_run rest ms cur
  | ObjLine.usemtlL _ :: rest, ms, cur => update_lines_run rest ms cur
  | l :: rest, ms, cur =>
    ((l :: (update_lines_run rest ms cur).1), (update_lines_run rest ms cur).2)

/-- The complete document `update_obj_file` writes to the temporary
file on success: the generated header comment, the `mtllib` line, then
the rewritten body. -/
def out_doc (lines : List ObjLine) (ms : List Label) : List ObjLine :=
  ObjLine.commentL :: ObjLine.mtllibL :: (update_lines_run lines ms none).1

/-- Drop every material directive (`mtllib` / `usemtl` line). -/
def strip_mtl (ls : List ObjLine) : List ObjLine :=
  ls.filter fun l =>
    match l with
    | ObjLine.usemtlL _ => false
    | ObjLine.mtllibL => false
    | _ => true

/-- Number of `usemtl` directives in a document. -/
def usemtl_count (ls : List ObjLine) : ℕ :=
  ls.countP fun l => match l with | ObjLine.usemtlL _ => true | _ => false

/-- Number of label transitions against a running previous label
(`none` before the first face): the claim-side count of how many
directives an edge-triggered writer must emit. -/
def transition_count : List Label → Option Label → ℕ
  | [], _ => 0
  | m :: ms, cur => (if some m = cur then 0 else 1) + transition_count ms (some m)

/-- Every `usemtl` directive is immediately followed by an `f ` line
(so each directive sits directly before the face it labels). -/
def usemtl_precedes_face : List ObjLine → Bool
  | [] => true
  | ObjLine.usemtlL _ :: rest =>
    (match rest with
     | ObjLine.fline _ :: _ => usemtl_precedes_face rest
     | _ => false)
  | _ :: rest => usemtl_precedes_face rest

/-! ## File-system model for `update_obj_file`

The source opens `obj_path` for reading and a sibling `.tmp` path for
writing, streams the rewritten document into the temporary file, and
calls `os.replace(temp_path, obj_path)`; on any exception it appends a
failure record to `self.stats['failed_files']` and removes the
temporary file if it exists.  The embedding replays this as a trace of
primitive file operations over a two-slot file system. -/

structure FS where
  objFile : Option (List ObjLine)
  tmpFile : Option (List ObjLine)
deriving DecidableEq, Repr

inductive FOp where
  | openTempW
  | writeTemp (l : ObjLine)
  | replaceTempToObj
  | removeTempIfExists
deriving DecidableEq, Repr

/-- Effect of one primitive operation.  `open(temp, 'w')` truncates;
`os.replace` atomically renames the temporary file over the original;
`os.remove` after the existence check clears the temporary slot. -/
def applyOp (fs : FS) : FOp → FS
  | FOp.openTempW => { fs with tmpFile := some [] }
  | FOp.writeTemp l => { fs with tmpFile := fs.tmpFile.map (· ++ [l]) }
  | FOp.replaceTempToObj =>
    match fs.tmpFile with
    | some d => { objFile := some d, tmpFile := none }
    | none => fs
  | FOp.removeTempIfExists => { fs with tmpFile := none }

/-- The operation trace of a fault-free run of `update_obj_file` on a
file whose lines are `lines`: open the temporary file, write the
document, and, when no `IndexError` interrupts the body loop, replace
the original. -/
def write_ops (lines : List ObjLine) (ms : List Label) : List FOp :=
  (FOp.openTempW :: (out_doc lines ms).map FOp.writeTemp) ++
    (if (update_lines_run lines ms none).2 then [FOp.replaceTempToObj] else [])

/-- Models `BuildingColorizer.update_obj_file` as a transition on the file
system plus the `failed_files` record.  `fault = some j` injects an I/O
failure at the j-th primitive operation (for `j` below the trace
length; larger `j` never raises and is not a failure run): the prefix
before it takes effect, the exception handler then records the failure
and removes the temporary file.  `fault = none` is an I/O-fault-free
run, which still ends in the handler when the body loop raises
`IndexError`. -/
def update_obj_file (fs : FS) (lines : List ObjLine) (ms : List Label)
    (fault : Option ℕ) (failed : List String) : FS × List String :=
  match fault with
  | none =>
    if (update_lines_run lines ms none).2 then
      ((write_ops lines ms).foldl applyOp fs, failed)
    else
      (applyOp ((write_ops lines ms).foldl applyOp fs) FOp.removeTempIfExists,
       failed ++ ["OBJ update failed"])
  | some j =>
    (applyOp (((write_ops lines ms).take j).foldl applyOp fs)
       FOp.removeTempIfExists,
     failed ++ ["OBJ update failed"])

/-! ## Claim-side reference definitions

These two definitions follow the wording of the spec, not the source;
the theorems below compare them with the source-side definitions. -/

/-- Stated from the spec's classifier rule: Ground iff
`|avgElevation - groundHeight| ≤ tolerance` and `|normal.z| > 0.95`;
else Wall iff `|normal.z| < 0.1`; else Roof. -/
def spec_rule (tol : ℚ) (vs : List Vec3) (face : List ℕ) (gh : ℚ) : Label :=
  if |face_avg_z vs face - gh| ≤ tol ∧
      absZGt (get_face_normal vs face) (95 / 100) = true then Label.Ground
  else if absZLt (get_face_normal vs face) (1 / 10) = true then Label.Wall
  else Label.Roof

/-- Stated from the spec's neighbor-set description: the set of other
faces whose centroid falls into the same spatial-index grid cell as
this face's centroid. -/
def same_cell_bucket (vs : List Vec3) (faces : List (List ℕ)) (i : ℕ) : List ℕ :=
  ((List.lookup (cell_key (get_face_centroid vs (faces.getD i [])))
      (create_spatial_index vs faces)).getD []).filter fun j => j != i

end Colorizer

attribute [local semireducible] Rat.inv Rat.mul Rat.add Rat.sub

namespace Colorizer

/-! ## Helper lemmas -/

theorem classify_nil_neighbors (tol : ℚ) (vs : List Vec3) (face : List ℕ)
    (gh : ℚ) (cache : List (ℕ × Label)) :
    classify_face_with_context tol vs face gh [] cache =
      (base_label tol vs face gh, false) := rfl

theorem foldl_process_step (tol : ℚ) (vs : List Vec3) (gh : ℚ)
    (fidx : List ((ℤ × ℤ × ℤ) × List ℕ)) (l : List (ℕ × List ℕ))
    (st : List Label × MeshCtx) :
    l.foldl (process_step tol vs gh fidx) st =
      (st.1 ++ l.map (fun p => base_label tol vs p.2 gh), st.2) := by
  induction l generalizing st with
  | nil => simp
  | cons p l ih =>
    rw [List.foldl_cons, ih]
    simp [process_step, get_neighboring_faces, classify_nil_neighbors]

theorem process_mesh_labels (tol : ℚ) (vs : List Vec3) (faces : List (List ℕ))
    (ctx : MeshCtx) :
    (process_mesh tol vs faces ctx).1 =
      faces.map fun f => base_label tol vs f (analyze_z_distribution (vs.map vz)) := by
  unfold process_mesh
  dsimp only
  rw [foldl_process_step]
  show faces.enum.map _ = _
  calc faces.enum.map (fun p => base_label tol vs p.2 (analyze_z_distribution (vs.map vz)))
      = (faces.enum.map Prod.snd).map
          (fun f => base_label tol vs f (analyze_z_distribution (vs.map vz))) := by
        rw [List.map_map]; rfl
    _ = _ := by rw [List.enum_map_snd]

theorem process_mesh_ctx (tol : ℚ) (vs : List Vec3) (faces : List (List ℕ))
    (ctx : MeshCtx) : (process_mesh tol vs faces ctx).2.2 = ctx := by
  unfold process_mesh
  dsimp only
  rw [foldl_process_step]

theorem process_upto_ctx (tol : ℚ) (vs : List Vec3) (faces : List (List ℕ))
    (ctx : MeshCtx) (i : ℕ) : (process_upto tol vs faces ctx i).2 = ctx := by
  unfold process_upto
  dsimp only
  rw [foldl_process_step]

theorem base_label_eq_spec_rule (tol : ℚ) (vs : List Vec3) (face : List ℕ)
    (gh : ℚ) : base_label tol vs face gh = spec_rule tol vs face gh := by
  unfold base_label spec_rule validate_ground_classification
  by_cases h1 : |face_avg_z vs face - gh| > tol
  · simp [h1, not_le.mpr h1]
  · simp [h1, not_lt.mp h1]

/-! ## Claim C1 -/

/-- C1: every face of a processed mesh receives exactly the spec's
rule-based label — Ground iff its mean elevation is within tolerance of
the estimated ground height and the unit normal's `|z|` exceeds 0.95,
else Wall iff `|z|` is below 0.1, else Roof — and every label is one of
the three enum values. -/
theorem C1_rule_based_labels (tol : ℚ) (vs : List Vec3)
    (faces : List (List ℕ)) (ctx : MeshCtx) :
    (process_mesh tol vs faces ctx).1 =
      faces.map (fun f => spec_rule tol vs f (analyze_z_distribution (vs.map vz))) ∧
    ∀ l ∈ (process_mesh tol vs faces ctx).1,
      l = Label.Roof ∨ l = Label.Wall ∨ l = Label.Ground := by
  constructor
  · rw [process_mesh_labels]
    exact List.map_congr_left fun f _ => base_label_eq_spec_rule ..
  · intro l _
    cases l
    · exact Or.inl rfl
    · exact Or.inr (Or.inl rfl)
    · exact Or.inr (Or.inr rfl)

/-- C1 witness: the classifier evaluated on a concrete mesh. -/
theorem C1_rule_based_labels_w :
    (process_mesh (1/100) [((0:ℚ),(0:ℚ),(0:ℚ)), (1,0,0), (0,1,0)] [[0,1,2]]
        ⟨[], 0⟩).1 =
      [[0,1,2]].map (fun f => spec_rule (1/100)
        [((0:ℚ),(0:ℚ),(0:ℚ)), (1,0,0), (0,1,0)] f
        (analyze_z_distribution ([((0:ℚ),(0:ℚ),(0:ℚ)), (1,0,0), (0,1,0)].map vz))) ∧
    (Label.Ground = Label.Roof ∨ Label.Ground = Label.Wall ∨
      Label.Ground = Label.Ground) :=
  ⟨(C1_rule_based_labels (1/100) [((0:ℚ),(0:ℚ),(0:ℚ)), (1,0,0), (0,1,0)]
      [[0,1,2]] ⟨[], 0⟩).1,
   (C1_rule_based_labels (1/100) [((0:ℚ),(0:ℚ),(0:ℚ)), (1,0,0), (0,1,0)]
      [[0,1,2]] ⟨[], 0⟩).2 Label.Ground (by decide)⟩

/-! ## Claim C10 -/

/-- C10: the neighbor lookup always returns the empty list, so the
whole pipeline degenerates to the per-face rule-based classifier: the
labels are a plain map over the faces (hence independent of the face
visitation order's interleaving with the cache), the instance state —
label cache and classification-changes counter — is returned untouched,
and a run started with a zero counter ends with a zero counter. -/
theorem C10_pipeline_is_per_face (tol : ℚ) (vs : List Vec3)
    (faces : List (List ℕ)) (ctx ctx' : MeshCtx) :
    (∀ (i : ℕ) (fidx : List ((ℤ × ℤ × ℤ) × List ℕ)),
      get_neighboring_faces i fidx = []) ∧
    (process_mesh tol vs faces ctx).1 =
      faces.map (fun f => base_label tol vs f (analyze_z_distribution (vs.map vz))) ∧
    (process_mesh tol vs faces ctx).2.2 = ctx ∧
    (process_mesh tol vs faces ctx).1 = (process_mesh tol vs faces ctx').1 ∧
    (process_mesh tol vs faces { cache := ctx.cache, changes := 0 }).2.2.changes = 0 := by
  refine ⟨fun i fidx => rfl, process_mesh_labels .., process_mesh_ctx .., ?_, ?_⟩
  · rw [process_mesh_labels, process_mesh_labels]
  · rw [process_mesh_ctx]

/-! ## Claim C2 (corrected)

The source's degenerate-normal sentinel is `np.array([0, 0, 1])` — the
unit upward vector, not the zero vector — and a face with that sentinel
passes the `abs(normal[2]) > 0.95` horizontality test, so it is
classified Ground (at ground level) or Roof, never Wall. -/

/-- Vertices of a degenerate (collinear) triangle at elevation 0. -/
def degVs : List Vec3 := [(0, 0, 0), (1, 0, 0), (2, 0, 0)]

/-- The face over `degVs` whose first three vertices are collinear. -/
def degFace : List ℕ := [0, 1, 2]

/-- C2 counterexample: for a collinear triangle the raw cross product
is zero, yet `get_face_normal` returns `(0, 0, 1)` — not the claimed
zero-vector sentinel — and the pipeline classifies the face Ground, not
the claimed Wall. -/
theorem C2_cex :
    face_cross degVs degFace = (0, 0, 0) ∧
    get_face_normal degVs degFace = (0, 0, 1) ∧
    get_face_normal degVs degFace ≠ (0, 0, 0) ∧
    (process_mesh (1/100) degVs [degFace] ⟨[], 0⟩).1 = [Label.Ground] ∧
    Label.Ground ≠ Label.Wall := by
  refine ⟨by decide, by decide, by decide, ?_, by decide⟩
  decide

/-- C2 (amended): for a face with at least three (resolved) vertices
whose leading cross product is the zero vector, `get_face_normal`
returns the unit upward sentinel `(0, 0, 1)`, and the pipeline
classifies the face Ground when its mean elevation is within tolerance
of the estimated ground height and Roof otherwise — never Wall. -/
theorem C2_degenerate_sentinel (tol : ℚ) (vs : List Vec3)
    (faces : List (List ℕ)) (ctx : MeshCtx) (i : ℕ) (f : List ℕ)
    (hf : faces[i]? = some f) (hlen : 3 ≤ f.length)
    (hdeg : face_cross vs f = (0, 0, 0)) :
    get_face_normal vs f = (0, 0, 1) ∧
    (process_mesh tol vs faces ctx).1[i]? =
      some (if |face_avg_z vs f - analyze_z_distribution (vs.map vz)| ≤ tol
            then Label.Ground else Label.Roof) := by
  have hn : get_face_normal vs f = (0, 0, 1) := by
    unfold get_face_normal
    rw [if_neg (by omega), if_pos hdeg]
  refine ⟨hn, ?_⟩
  rw [process_mesh_labels, List.getElem?_map, hf]
  have hGt : absZGt ((0:ℚ), (0:ℚ), (1:ℚ)) (95/100) = true := by decide
  have hLt : absZLt ((0:ℚ), (0:ℚ), (1:ℚ)) (1/10) = false := by decide
  have hb : base_label tol vs f (analyze_z_distribution (vs.map vz)) =
      if |face_avg_z vs f - analyze_z_distribution (vs.map vz)| ≤ tol
      then Label.Ground else Label.Roof := by
    unfold base_label validate_ground_classification
    rw [hn, hGt, hLt]
    by_cases h1 : |face_avg_z vs f - analyze_z_distribution (vs.map vz)| ≤ tol
    · rw [if_neg (not_lt.mpr h1), if_pos rfl, if_pos h1]
    · rw [if_pos (not_le.mp h1), if_neg (by simp), if_neg (by simp), if_neg h1]
  rw [Option.map_some', hb]

/-- Vertices for the Roof side of the amended C2: a collinear triangle
at elevation 5 over a ground cluster at elevation 0. -/
def degHighVs : List Vec3 :=
  [(0, 0, 5), (1, 0, 5), (2, 0, 5), (0, 0, 0), (1, 1, 0), (9, 9, 0)]

/-- C2 witness: the amended statement applied to a concrete elevated
collinear face, which comes out Roof. -/
theorem C2_degenerate_sentinel_w :
    get_face_normal degHighVs [0, 1, 2] = (0, 0, 1) ∧
    (process_mesh (1/100) degHighVs [[0, 1, 2], [3, 4, 5]] ⟨[], 0⟩).1[0]? =
      some (if |face_avg_z degHighVs [0, 1, 2] -
                analyze_z_distribution (degHighVs.map vz)| ≤ (1/100 : ℚ)
            then Label.Ground else Label.Roof) :=
  C2_degenerate_sentinel (1/100) degHighVs [[0, 1, 2], [3, 4, 5]] ⟨[], 0⟩ 0
    [0, 1, 2] (by decide) (by decide) (by decide)

/-! ## Claim C3 (the code contradicts it)

The claim describes the intended spatial-index lookup; the source's
`get_neighboring_faces` is an acknowledged stub (`return []  # TODO:
Implement proper neighbor finding`) that never consults the index, so
the consulted neighbor set is empty even when the same-cell bucket is
not. -/

/-- Two small faces near the origin whose centroids share grid cell
`(0, 0, 0)`. -/
def bucketVs : List Vec3 :=
  [(0, 0, 0), (1/10, 0, 0), (0, 1/10, 0), (1/10, 1/10, 0)]

def bucketFaces : List (List ℕ) := [[0, 1, 2], [1, 2, 3]]

/-- C3: evaluating the source at a mesh with two faces in the same grid
cell: the claim-side same-cell bucket of face 0 is `[1]`, both faces'
centroids have the cell key `(0, 0, 0)`, but the source's neighbor
lookup returns `[]` — for this input and for every input. -/
theorem C3_neighbors_stubbed :
    same_cell_bucket bucketVs bucketFaces 0 = [1] ∧
    cell_key (get_face_centroid bucketVs [0, 1, 2]) = (0, 0, 0) ∧
    cell_key (get_face_centroid bucketVs [1, 2, 3]) = (0, 0, 0) ∧
    get_neighboring_faces 0 (create_spatial_index bucketVs bucketFaces) = [] ∧
    ∀ (i : ℕ) (fidx : List ((ℤ × ℤ × ℤ) × List ℕ)),
      get_neighboring_faces i fidx = [] :=
  ⟨by decide, by decide, by decide, rfl, fun i fidx => rfl⟩

/-! ## Claim C4 (the code contradicts it)

`self.classification_cache` is read in `classify_face_with_context`
through `.get(n, base_class)` but no statement in the source ever
writes to it; the cache therefore still has its initial contents when
any later face is visited, and no face's final label is ever stored. -/

/-- A two-face mesh: an elevated roof face followed by a ground face. -/
def twoFaceVs : List Vec3 :=
  [(0, 0, 5), (1, 0, 5), (0, 1, 5), (0, 0, 0), (1, 1, 0), (9, 9, 0)]

def twoFaces : List (List ℕ) := [[0, 1, 2], [3, 4, 5]]

/-- C4: the label cache is never written during a classification pass —
the cache component of the loop state before face `i` equals the
initial cache for every `i` — and concretely, when face 1 of a two-face
mesh is visited, face 0 has already received its final label Roof but
the cache is still empty and holds no entry for face 0. -/
theorem C4_cache_never_written :
    (∀ (tol : ℚ) (vs : List Vec3) (faces : List (List ℕ)) (ctx : MeshCtx)
      (i : ℕ), (process_upto tol vs faces ctx i).2.cache = ctx.cache) ∧
    (process_mesh (1/100) twoFaceVs twoFaces ⟨[], 0⟩).1[0]? = some Label.Roof ∧
    (process_upto (1/100) twoFaceVs twoFaces ⟨[], 0⟩ 1).2.cache = [] ∧
    List.lookup 0 (process_upto (1/100) twoFaceVs twoFaces ⟨[], 0⟩ 1).2.cache
      = none := by
  refine ⟨fun tol vs faces ctx i => by rw [process_upto_ctx], ?_, ?_, ?_⟩
  · decide
  · rw [process_upto_ctx]
  · rw [process_upto_ctx]
    rfl

/-! ## Claim C6 -/

/-- C6: with a nonempty neighbor list, the smoothing step returns the
most frequent neighbor label `m` (with the change flag set, which is
what increments the adjustment counter) precisely when `m` differs from
the base label and its count strictly exceeds 0.7 times the number of
neighbors; at exactly 0.7 times there is no override and the base label
is kept with the flag clear. -/
theorem C6_smoothing_override (tol : ℚ) (vs : List Vec3) (face : List ℕ)
    (gh : ℚ) (neighbors : List ℕ) (cache : List (ℕ × Label))
    (hne : neighbors ≠ []) :
    (classify_face_with_context tol vs face gh neighbors cache =
      (let b := base_label tol vs face gh
       let ncs := neighbors.map fun n => (List.lookup n cache).getD b
       let m := most_common ncs
       if m ≠ b ∧ 10 * ncs.count m > 7 * neighbors.length then (m, true)
       else (b, false))) ∧
    (10 * ((neighbors.map fun n =>
        (List.lookup n cache).getD (base_label tol vs face gh)).count
          (most_common (neighbors.map fun n =>
            (List.lookup n cache).getD (base_label tol vs face gh)))) =
      7 * neighbors.length →
      classify_face_with_context tol vs face gh neighbors cache =
        (base_label tol vs face gh, false)) := by
  constructor
  · unfold classify_face_with_context
    rw [if_neg (by simp [List.isEmpty_iff, hne])]
  · intro heq
    unfold classify_face_with_context
    rw [if_neg (by simp [List.isEmpty_iff, hne])]
    exact if_neg (by rw [not_and]; intro _; omega)

/-- Neighbor indices, label cache, and a face for the C6 witness: ten
neighbors, seven of them cached Wall, a Roof base face — the exact
0.7 boundary, where no override may happen. -/
def wVs : List Vec3 := [(0, 0, 0), (1, 0, 0), (0, 1, 1)]

def wCache : List (ℕ × Label) :=
  [(0, Label.Wall), (1, Label.Wall), (2, Label.Wall), (3, Label.Wall),
   (4, Label.Wall), (5, Label.Wall), (6, Label.Wall)]

/-- C6 witness: at the strict boundary (7 Wall votes among 10
neighbors of a Roof-based face) the smoothing keeps the base label and
does not count an adjustment. -/
theorem C6_smoothing_override_w :
    classify_face_with_context (1/100) wVs [0, 1, 2] 99
        [0, 1, 2, 3, 4, 5, 6, 7, 8, 9] wCache =
      (base_label (1/100) wVs [0, 1, 2] 99, false) :=
  (C6_smoothing_override (1/100) wVs [0, 1, 2] 99
    [0, 1, 2, 3, 4, 5, 6, 7, 8, 9] wCache (by decide)).2 (by decide)

/-! ## Claim C5: lemmas about the histogram scan -/

theorem foldl_min_mem (zs : List ℚ) : ∀ z : ℚ, zs.foldl min z ∈ z :: zs := by
  induction zs with
  | nil => intro z; simp
  | cons a zs ih =>
    intro z
    rw [List.foldl_cons]
    rcases le_total z a with h1 | h1
    · rw [min_eq_left h1]
      rcases List.mem_cons.mp (ih z) with h2 | h2 <;> simp [h2]
    · rw [min_eq_right h1]
      rcases List.mem_cons.mp (ih a) with h2 | h2 <;> simp [h2]

theorem foldl_min_le (zs : List ℚ) :
    ∀ z : ℚ, ∀ w ∈ z :: zs, zs.foldl min z ≤ w := by
  induction zs with
  | nil => intro z w hw; rcases List.mem_cons.mp hw with h | h <;> simp_all
  | cons a zs ih =>
    intro z w hw
    rcases List.mem_cons.mp hw with h | h
    · subst h
      calc (a :: zs).foldl min w = zs.foldl min (min w a) := rfl
        _ ≤ min w a := ih (min w a) (min w a) (List.mem_cons_self ..)
        _ ≤ w := min_le_left ..
    · rcases List.mem_cons.mp h with h2 | h2
      · subst h2
        calc zs.foldl min (min z w) ≤ min z w :=
              ih (min z w) (min z w) (List.mem_cons_self ..)
          _ ≤ w := min_le_right ..
      · exact ih (min z a) w (List.mem_cons_of_mem _ h2)

theorem foldl_max_ge (zs : List ℚ) :
    ∀ z : ℚ, ∀ w ∈ z :: zs, w ≤ zs.foldl max z := by
  induction zs with
  | nil => intro z w hw; rcases List.mem_cons.mp hw with h | h <;> simp_all
  | cons a zs ih =>
    intro z w hw
    rcases List.mem_cons.mp hw with h | h
    · subst h
      calc w ≤ max w a := le_max_left ..
        _ ≤ zs.foldl max (max w a) :=
            ih (max w a) (max w a) (List.mem_cons_self ..)
    · rcases List.mem_cons.mp h with h2 | h2
      · subst h2
        calc w ≤ max z w := le_max_right ..
          _ ≤ zs.foldl max (max z w) :=
            ih (max z w) (max z w) (List.mem_cons_self ..)
      · exact ih (max z a) w (List.mem_cons_of_mem _ h2)

theorem foldl_max_nat_mem (l : List ℕ) :
    ∀ b : ℕ, l.foldl max b ∈ b :: l := by
  induction l with
  | nil => intro b; simp
  | cons a l ih =>
    intro b
    rw [List.foldl_cons]
    rcases le_total a b with h1 | h1
    · rw [max_eq_left h1]
      rcases List.mem_cons.mp (ih b) with h2 | h2 <;> simp [h2]
    · rw [max_eq_right h1]
      rcases List.mem_cons.mp (ih a) with h2 | h2 <;> simp [h2]

theorem foldl_max_nat_ge (l : List ℕ) :
    ∀ b : ℕ, ∀ x ∈ b :: l, x ≤ l.foldl max b := by
  induction l with
  | nil => intro b x hx; rcases List.mem_cons.mp hx with h | h <;> simp_all
  | cons a l ih =>
    intro b x hx
    rcases List.mem_cons.mp hx with h | h
    · subst h
      calc x ≤ max x a := le_max_left ..
        _ ≤ l.foldl max (max x a) := ih (max x a) (max x a) (List.mem_cons_self ..)
    · rcases List.mem_cons.mp h with h2 | h2
      · subst h2
        calc x ≤ max b x := le_max_right ..
          _ ≤ l.foldl max (max b x) := ih (max b x) (max b x) (List.mem_cons_self ..)
      · exact ih (max b a) x (List.mem_cons_of_mem _ h2)

/-- Some histogram bucket is nonempty: the minimum elevation itself
lands in bucket 0 (nondegenerate range) or bucket 25 (degenerate
range). -/
theorem exists_nonempty_bucket (z : ℚ) (zs : List ℚ) :
    ∃ i, i < 50 ∧ 1 ≤ z_count z zs i := by
  set mn := zs.foldl min z with hmn
  set mx := zs.foldl max z with hmx
  have hmem : mn ∈ z :: zs := foldl_min_mem zs z
  have hmnmx : mn ≤ mx :=
    le_trans (foldl_min_le zs z z (List.mem_cons_self ..))
      (foldl_max_ge zs z z (List.mem_cons_self ..))
  by_cases hdeg : mn = mx
  · refine ⟨25, by omega, ?_⟩
    have e25 : z_edge z zs 25 = mn := by
      unfold z_edge z_lo z_hi
      rw [← hmn, ← hmx, if_pos hdeg, if_pos hdeg, ← hdeg]
      push_cast
      ring
    have e26 : z_edge z zs 26 = mn + 1/50 := by
      unfold z_edge z_lo z_hi
      rw [← hmn, ← hmx, if_pos hdeg, if_pos hdeg, ← hdeg]
      push_cast
      ring
    unfold z_count
    rw [if_neg (by omega)]
    refine Nat.succ_le_of_lt (List.countP_pos.mpr ⟨mn, hmem, ?_⟩)
    rw [decide_eq_true_eq, e25, e26]
    constructor
    · exact le_refl mn
    · linarith
  · have hlt : mn < mx := lt_of_le_of_ne hmnmx hdeg
    refine ⟨0, by omega, ?_⟩
    have e0 : z_edge z zs 0 = mn := by
      unfold z_edge z_lo z_hi
      rw [← hmn, ← hmx, if_neg hdeg, if_neg hdeg]
      push_cast
      ring
    have e1 : z_edge z zs 1 = mn + (mx - mn) / 50 := by
      unfold z_edge z_lo z_hi
      rw [← hmn, ← hmx, if_neg hdeg, if_neg hdeg]
      push_cast
      ring
    unfold z_count
    rw [if_neg (by omega)]
    refine Nat.succ_le_of_lt (List.countP_pos.mpr ⟨mn, hmem, ?_⟩)
    rw [decide_eq_true_eq, e0, e1]
    constructor
    · exact le_refl mn
    · linarith

/-- Every bucket count is at most the peak. -/
theorem z_count_le_peak (z : ℚ) (zs : List ℚ) (i : ℕ) (hi : i < 50) :
    z_count z zs i ≤ z_peak z zs := by
  refine foldl_max_nat_ge _ 0 _ (List.mem_cons_of_mem _ ?_)
  exact List.mem_map.mpr ⟨i, List.mem_range.mpr hi, rfl⟩

/-- The peak is attained by some bucket, and is at least 1. -/
theorem z_peak_attained (z : ℚ) (zs : List ℚ) :
    1 ≤ z_peak z zs ∧ ∃ i, i < 50 ∧ z_count z zs i = z_peak z zs := by
  obtain ⟨i0, hi0, hc0⟩ := exists_nonempty_bucket z zs
  have h1 : 1 ≤ z_peak z zs := le_trans hc0 (z_count_le_peak z zs i0 hi0)
  have hmem := foldl_max_nat_mem ((List.range 50).map (z_count z zs)) 0
  rcases List.mem_cons.mp hmem with h | h
  · exfalso
    have h0 : z_peak z zs = 0 := h
    omega
  · obtain ⟨i, hi, hci⟩ := List.mem_map.mp h
    exact ⟨h1, i, List.mem_range.mp hi, hci⟩

theorem scanFirst_some_spec (p : ℕ → Bool) :
    ∀ (fuel k i : ℕ), scanFirst p fuel k = some i →
      p i = true ∧ k ≤ i ∧ i < k + fuel ∧
        ∀ j, k ≤ j → j < i → p j = false := by
  intro fuel
  induction fuel with
  | zero => intro k i h; exact absurd h (by simp [scanFirst])
  | succ fuel ih =>
    intro k i h
    unfold scanFirst at h
    by_cases hp : p k = true
    · rw [if_pos hp] at h
      obtain rfl : k = i := Option.some.inj h
      exact ⟨hp, le_refl _, by omega, fun j h1 h2 => absurd (h1.trans_lt h2)
        (Nat.lt_irrefl _)⟩
    · rw [if_neg hp] at h
      obtain ⟨hpi, h1, h2, h3⟩ := ih (k + 1) i h
      refine ⟨hpi, by omega, by omega, fun j hj1 hj2 => ?_⟩
      by_cases hjk : j = k
      · subst hjk; exact Bool.not_eq_true _ ▸ eq_false_of_ne_true hp
      · exact h3 j (by omega) hj2

theorem scanFirst_isSome (p : ℕ → Bool) :
    ∀ (fuel k j : ℕ), k ≤ j → j < k + fuel → p j = true →
      (scanFirst p fuel k).isSome = true := by
  intro fuel
  induction fuel with
  | zero => intro k j h1 h2; omega
  | succ fuel ih =>
    intro k j h1 h2 hp
    unfold scanFirst
    by_cases hk : p k = true
    · rw [if_pos hk]; rfl
    · rw [if_neg hk]
      have hjk : k ≠ j := fun h => hk (h ▸ hp)
      exact ih (k + 1) j (by omega) (by omega) hp

/-- C5: the ground estimator returns 0 on an empty elevation list, and
on a nonempty list it returns the left edge of the first of the 50
histogram buckets whose count strictly exceeds one tenth of the peak
count, such a bucket always existing (so the definition's fall-back to
the global minimum is never taken on nonempty input). -/
theorem C5_ground_estimator :
    analyze_z_distribution [] = 0 ∧
    ∀ (z : ℚ) (zs : List ℚ), ∃ i, i < 50 ∧
      10 * z_count z zs i > z_peak z zs ∧
      (∀ j < i, 10 * z_count z zs j ≤ z_peak z zs) ∧
      analyze_z_distribution (z :: zs) = z_edge z zs i := by
  refine ⟨rfl, fun z zs => ?_⟩
  obtain ⟨hpk, ipk, hipk, hcpk⟩ := z_peak_attained z zs
  have hqual : decide (10 * z_count z zs ipk > z_peak z zs) = true := by
    rw [decide_eq_true_eq, hcpk]; omega
  have hsome := scanFirst_isSome
    (fun i => decide (10 * z_count z zs i > z_peak z zs)) 50 0 ipk
    (Nat.zero_le _) (by omega) hqual
  obtain ⟨i, hi⟩ := Option.isSome_iff_exists.mp hsome
  obtain ⟨hpi, _, hlt, hfirst⟩ := scanFirst_some_spec
    (fun i => decide (10 * z_count z zs i > z_peak z zs)) 50 0 i hi
  have hpi' : 10 * z_count z zs i > z_peak z zs := of_decide_eq_true hpi
  refine ⟨i, by omega, hpi', ?_, ?_⟩
  · intro j hj
    have hj' : ¬(10 * z_count z zs j > z_peak z zs) :=
      of_decide_eq_false (hfirst j (Nat.zero_le _) hj)
    omega
  · show (match scanFirst (fun i => decide (10 * z_count z zs i > z_peak z zs))
        50 0 with
      | some i => z_edge z zs i
      | none => zs.foldl min z) = z_edge z zs i
    rw [hi]

/-- C5 witness: the characterization instantiated on a concrete
elevation list. -/
theorem C5_ground_estimator_w :
    ∃ i, i < 50 ∧
      10 * z_count 0 [5, 5, 5] i > z_peak 0 [5, 5, 5] ∧
      (∀ j < i, 10 * z_count 0 [5, 5, 5] j ≤ z_peak 0 [5, 5, 5]) ∧
      analyze_z_distribution [0, 5, 5, 5] = z_edge 0 [5, 5, 5] i :=
  C5_ground_estimator.2 0 [5, 5, 5]

/-! ## Claim C7: lemmas about the output writer -/

theorem update_count_transitions :
    ∀ (lines : List ObjLine) (ms : List Label) (cur : Option Label),
      (update_lines_run lines ms cur).2 = true →
      usemtl_count (update_lines_run lines ms cur).1 =
        transition_count (ms.take (face_count lines)) cur := by
  intro lines
  induction lines with
  | nil =>
    intro ms cur _
    simp [update_lines_run, usemtl_count, face_count, transition_count]
  | cons l rest ih =>
    intro ms cur hok
    cases l with
    | fline is =>
      cases ms with
      | nil => exact absurd hok (by simp [update_lines_run])
      | cons m ms =>
        have hface : face_count (ObjLine.fline is :: rest) =
            face_count rest + 1 := by
          simp [face_count, List.countP_cons]
        rw [hface, List.take_succ_cons]
        by_cases hcur : some m = cur
        · have hok2 : (update_lines_run rest ms (some m)).2 = true := by
            simpa [update_lines_run, hcur] using hok
          have ht := ih ms (some m) hok2
          simp [update_lines_run, hcur, usemtl_count, List.countP_cons,
            transition_count] at ht ⊢
          exact ht
        · have hok2 : (update_lines_run rest ms (some m)).2 = true := by
            simpa [update_lines_run, hcur] using hok
          have ht := ih ms (some m) hok2
          simp [update_lines_run, hcur, usemtl_count, List.countP_cons,
            transition_count] at ht ⊢
          omega
    | mtllibL =>
      have hok2 : (update_lines_run rest ms cur).2 = true := by
        simpa [update_lines_run] using hok
      simpa [update_lines_run, face_count, List.countP_cons] using ih ms cur hok2
    | usemtlL m =>
      have hok2 : (update_lines_run rest ms cur).2 = true := by
        simpa [update_lines_run] using hok
      simpa [update_lines_run, face_count, List.countP_cons] using ih ms cur hok2
    | vline v =>
      have hok2 : (update_lines_run rest ms cur).2 = true := by
        simpa [update_lines_run] using hok
      simpa [update_lines_run, usemtl_count, face_count,
        List.countP_cons] using ih ms cur hok2
    | commentL =>
      have hok2 : (update_lines_run rest ms cur).2 = true := by
        simpa [update_lines_run] using hok
      simpa [update_lines_run, usemtl_count, face_count,
        List.countP_cons] using ih ms cur hok2
    | otherL =>
      have hok2 : (update_lines_run rest ms cur).2 = true := by
        simpa [update_lines_run] using hok
      simpa [update_lines_run, usemtl_count, face_count,
        List.countP_cons] using ih ms cur hok2

theorem update_usemtl_precedes :
    ∀ (lines : List ObjLine) (ms : List Label) (cur : Option Label),
      usemtl_precedes_face (update_lines_run lines ms cur).1 = true := by
  intro lines
  induction lines with
  | nil => intro ms cur; simp [update_lines_run, usemtl_precedes_face]
  | cons l rest ih =>
    intro ms cur
    cases l with
    | fline is =>
      cases ms with
      | nil => simp [update_lines_run, usemtl_precedes_face]
      | cons m ms =>
        by_cases hcur : some m = cur
        · subst hcur
          simp [update_lines_run, usemtl_precedes_face, ih ms (some m)]
        · simp [update_lines_run, hcur, usemtl_precedes_face, ih ms (some m)]
    | mtllibL => simpa [update_lines_run] using ih ms cur
    | usemtlL m => simpa [update_lines_run] using ih ms cur
    | vline v =>
      simpa [update_lines_run, usemtl_precedes_face] using ih ms cur
    | commentL =>
      simpa [update_lines_run, usemtl_precedes_face] using ih ms cur
    | otherL =>
      simpa [update_lines_run, usemtl_precedes_face] using ih ms cur

/-- Input lines for the concrete C7 scenario: one vertex line followed
by five face lines. -/
def fiveFaceLines : List ObjLine :=
  [ObjLine.vline (0, 0, 0), ObjLine.fline [1, 2, 3], ObjLine.fline [1, 2, 4],
   ObjLine.fline [2, 3, 4], ObjLine.fline [1, 3, 4], ObjLine.fline [1, 2, 5]]

/-- C7: a `usemtl` directive is emitted exactly at label transitions —
on any successful rewrite the number of emitted directives equals the
number of positions whose label differs from the previous face's label
(the first face always differing from the initial `None` material), and
every emitted directive sits immediately before a face line; for the
label sequence [Wall, Wall, Roof, Roof, Ground] exactly 3 directives
come out, not 5. -/
theorem C7_edge_triggered_directives :
    (∀ (lines : List ObjLine) (ms : List Label) (cur : Option Label),
      (update_lines_run lines ms cur).2 = true →
      usemtl_count (update_lines_run lines ms cur).1 =
        transition_count (ms.take (face_count lines)) cur ∧
      usemtl_precedes_face (update_lines_run lines ms cur).1 = true) ∧
    update_lines_run fiveFaceLines
        [Label.Wall, Label.Wall, Label.Roof, Label.Roof, Label.Ground] none =
      ([ObjLine.vline (0, 0, 0),
        ObjLine.usemtlL Label.Wall, ObjLine.fline [1, 2, 3],
        ObjLine.fline [1, 2, 4],
        ObjLine.usemtlL Label.Roof, ObjLine.fline [2, 3, 4],
        ObjLine.fline [1, 3, 4],
        ObjLine.usemtlL Label.Ground, ObjLine.fline [1, 2, 5]], true) ∧
    usemtl_count (update_lines_run fiveFaceLines
        [Label.Wall, Label.Wall, Label.Roof, Label.Roof, Label.Ground] none).1
      = 3 := by
  refine ⟨fun lines ms cur hok =>
    ⟨update_count_transitions lines ms cur hok, update_usemtl_precedes lines ms cur⟩,
    by decide, by decide⟩

/-- C7 witness: the general transition characterization applied to the
concrete five-face document. -/
theorem C7_edge_triggered_directives_w :
    usemtl_count (update_lines_run fiveFaceLines
        [Label.Wall, Label.Wall, Label.Roof, Label.Roof, Label.Ground] none).1 =
      transition_count
        ([Label.Wall, Label.Wall, Label.Roof, Label.Roof, Label.Ground].take
          (face_count fiveFaceLines)) none ∧
    usemtl_precedes_face (update_lines_run fiveFaceLines
        [Label.Wall, Label.Wall, Label.Roof, Label.Roof, Label.Ground] none).1
      = true :=
  C7_edge_triggered_directives.1 fiveFaceLines
    [Label.Wall, Label.Wall, Label.Roof, Label.Roof, Label.Ground] none
    (by decide)

/-! ## Claim C8: reprocessing is idempotent on labels -/

theorem parse_vertices_strip (ls : List ObjLine) :
    parse_vertices (strip_mtl ls) = parse_vertices ls := by
  induction ls with
  | nil => rfl
  | cons l rest ih =>
    cases l <;> simp [strip_mtl, List.filter_cons, parse_vertices, ih] <;>
      simpa [strip_mtl] using ih

theorem parse_faces_strip (ls : List ObjLine) :
    parse_faces (strip_mtl ls) = parse_faces ls := by
  induction ls with
  | nil => rfl
  | cons l rest ih =>
    simp only [strip_mtl] at ih ⊢
    cases l with
    | fline is =>
      simp only [List.filter_cons]
      by_cases h3 : 3 ≤ is.length <;> simp [parse_faces, h3, ih]
    | vline v => simp [List.filter_cons, parse_faces, ih]
    | usemtlL m => simp [List.filter_cons, parse_faces, ih]
    | mtllibL => simp [List.filter_cons, parse_faces, ih]
    | commentL => simp [List.filter_cons, parse_faces, ih]
    | otherL => simp [List.filter_cons, parse_faces, ih]

theorem parse_vertices_update :
    ∀ (lines : List ObjLine) (ms : List Label) (cur : Option Label),
      (update_lines_run lines ms cur).2 = true →
      parse_vertices (update_lines_run lines ms cur).1 = parse_vertices lines := by
  intro lines
  induction lines with
  | nil => intro ms cur _; rfl
  | cons l rest ih =>
    intro ms cur hok
    cases l with
    | fline is =>
      cases ms with
      | nil => exact absurd hok (by simp [update_lines_run])
      | cons m ms =>
        by_cases hcur : some m = cur
        · subst hcur
          have hok2 : (update_lines_run rest ms (some m)).2 = true := by
            simpa [update_lines_run] using hok
          simp [update_lines_run, parse_vertices, ih ms (some m) hok2]
        · have hok2 : (update_lines_run rest ms (some m)).2 = true := by
            simpa [update_lines_run, hcur] using hok
          simp [update_lines_run, hcur, parse_vertices, ih ms (some m) hok2]
    | mtllibL =>
      have hok2 : (update_lines_run rest ms cur).2 = true := by
        simpa [update_lines_run] using hok
      simpa [update_lines_run, parse_vertices] using ih ms cur hok2
    | usemtlL m =>
      have hok2 : (update_lines_run rest ms cur).2 = true := by
        simpa [update_lines_run] using hok
      simpa [update_lines_run, parse_vertices] using ih ms cur hok2
    | vline v =>
      have hok2 : (update_lines_run rest ms cur).2 = true := by
        simpa [update_lines_run] using hok
      simpa [update_lines_run, parse_vertices] using ih ms cur hok2
    | commentL =>
      have hok2 : (update_lines_run rest ms cur).2 = true := by
        simpa [update_lines_run] using hok
      simpa [update_lines_run, parse_vertices] using ih ms cur hok2
    | otherL =>
      have hok2 : (update_lines_run rest ms cur).2 = true := by
        simpa [update_lines_run] using hok
      simpa [update_lines_run, parse_vertices] using ih ms cur hok2

theorem parse_faces_update :
    ∀ (lines : List ObjLine) (ms : List Label) (cur : Option Label),
      (update_lines_run lines ms cur).2 = true →
      parse_faces (update_lines_run lines ms cur).1 = parse_faces lines := by
  intro lines
  induction lines with
  | nil => intro ms cur _; rfl
  | cons l rest ih =>
    intro ms cur hok
    cases l with
    | fline is =>
      cases ms with
      | nil => exact absurd hok (by simp [update_lines_run])
      | cons m ms =>
        by_cases hcur : some m = cur
        · subst hcur
          have hok2 : (update_lines_run rest ms (some m)).2 = true := by
            simpa [update_lines_run] using hok
          simp [update_lines_run, parse_faces, ih ms (some m) hok2]
        · have hok2 : (update_lines_run rest ms (some m)).2 = true := by
            simpa [update_lines_run, hcur] using hok
          simp [update_lines_run, hcur, parse_faces, ih ms (some m) hok2]
    | mtllibL =>
      have hok2 : (update_lines_run rest ms cur).2 = true := by
        simpa [update_lines_run] using hok
      simpa [update_lines_run, parse_faces] using ih ms cur hok2
    | usemtlL m =>
      have hok2 : (update_lines_run rest ms cur).2 = true := by
        simpa [update_lines_run] using hok
      simpa [update_lines_run, parse_faces] using ih ms cur hok2
    | vline v =>
      have hok2 : (update_lines_run rest ms cur).2 = true := by
        simpa [update_lines_run] using hok
      simpa [update_lines_run, parse_faces] using ih ms cur hok2
    | commentL =>
      have hok2 : (update_lines_run rest ms cur).2 = true := by
        simpa [update_lines_run] using hok
      simpa [update_lines_run, parse_faces] using ih ms cur hok2
    | otherL =>
      have hok2 : (update_lines_run rest ms cur).2 = true := by
        simpa [update_lines_run] using hok
      simpa [update_lines_run, parse_faces] using ih ms cur hok2

/-- C8: stripping all material directives from the rewritten document
and parsing it again yields exactly the original vertex and face data,
and re-running the classification — with any instance state — on that
data reproduces the original ClassificationResult exactly. -/
theorem C8_reprocess_idempotent (lines : List ObjLine) (ms : List Label)
    (hok : (update_lines_run lines ms none).2 = true) :
    parse_vertices (strip_mtl (out_doc lines ms)) = parse_vertices lines ∧
    parse_faces (strip_mtl (out_doc lines ms)) = parse_faces lines ∧
    ∀ (tol : ℚ) (ctx ctx2 : MeshCtx),
      ms = (process_mesh tol (parse_vertices lines) (parse_faces lines) ctx).1 →
      (process_mesh tol (parse_vertices (strip_mtl (out_doc lines ms)))
        (parse_faces (strip_mtl (out_doc lines ms))) ctx2).1 = ms := by
  have hv : parse_vertices (strip_mtl (out_doc lines ms)) =
      parse_vertices lines := by
    rw [parse_vertices_strip]
    show parse_vertices (update_lines_run lines ms none).1 = _
    exact parse_vertices_update lines ms none hok
  have hf : parse_faces (strip_mtl (out_doc lines ms)) = parse_faces lines := by
    rw [parse_faces_strip]
    show parse_faces (update_lines_run lines ms none).1 = _
    exact parse_faces_update lines ms none hok
  refine ⟨hv, hf, fun tol ctx ctx2 hms => ?_⟩
  rw [hv, hf, process_mesh_labels, hms, process_mesh_labels]

/-- A mesh document with stale material directives: three vertices and
one face; classification labels the face Ground. -/
def idemLines : List ObjLine :=
  [ObjLine.vline (0, 0, 0), ObjLine.vline (1, 0, 0), ObjLine.vline (0, 1, 0),
   ObjLine.mtllibL, ObjLine.usemtlL Label.Roof, ObjLine.fline [1, 2, 3]]

/-- C8 witness: rewriting `idemLines` with its own classification
result, stripping, and reclassifying under a different (polluted)
instance state returns the same result. -/
theorem C8_reprocess_idempotent_w :
    (process_mesh (1/100)
      (parse_vertices (strip_mtl (out_doc idemLines [Label.Ground])))
      (parse_faces (strip_mtl (out_doc idemLines [Label.Ground])))
      ⟨[(7, Label.Wall)], 5⟩).1 = [Label.Ground] :=
  (C8_reprocess_idempotent idemLines [Label.Ground] (by decide)).2.2
    (1/100) ⟨[], 0⟩ ⟨[(7, Label.Wall)], 5⟩ (by decide)

/-! ## Claim C9: failed writes leave the original untouched -/

theorem foldl_no_replace_obj (ops : List FOp) :
    ∀ fs : FS, (∀ op ∈ ops, op ≠ FOp.replaceTempToObj) →
      (ops.foldl applyOp fs).objFile = fs.objFile := by
  induction ops with
  | nil => intro fs _; rfl
  | cons op ops ih =>
    intro fs h
    rw [List.foldl_cons, ih _ (fun o ho => h o (List.mem_cons_of_mem _ ho))]
    have hop := h op (List.mem_cons_self ..)
    cases op with
    | openTempW => rfl
    | writeTemp l => rfl
    | replaceTempToObj => exact absurd rfl hop
    | removeTempIfExists => rfl

theorem foldl_writeTemp (doc : List ObjLine) :
    ∀ (o : Option (List ObjLine)) (acc : List ObjLine),
      (doc.map FOp.writeTemp).foldl applyOp ⟨o, some acc⟩ =
        ⟨o, some (acc ++ doc)⟩ := by
  induction doc with
  | nil => intro o acc; simp
  | cons d doc ih =>
    intro o acc
    rw [List.map_cons, List.foldl_cons]
    show (doc.map FOp.writeTemp).foldl applyOp ⟨o, some (acc ++ [d])⟩ = _
    rw [ih o (acc ++ [d])]
    simp

theorem write_ops_take_no_replace (lines : List ObjLine) (ms : List Label)
    (j : ℕ) (hj : j < (write_ops lines ms).length) :
    ∀ op ∈ (write_ops lines ms).take j, op ≠ FOp.replaceTempToObj := by
  intro op hop
  have hbody : ∀ o ∈ (FOp.openTempW :: (out_doc lines ms).map FOp.writeTemp),
      o ≠ FOp.replaceTempToObj := by
    intro o ho
    rcases List.mem_cons.mp ho with h | h
    · subst h; intro hc; cases hc
    · obtain ⟨l, _, hl⟩ := List.mem_map.mp h
      rw [← hl]; intro hc; cases hc
  unfold write_ops at hj hop
  by_cases hfl : (update_lines_run lines ms none).2 = true
  · rw [if_pos hfl] at hj hop
    have hlen : j ≤
        (FOp.openTempW :: (out_doc lines ms).map FOp.writeTemp).length := by
      rw [List.length_append] at hj
      simp only [List.length_cons, List.length_nil, List.length_map] at hj ⊢
      omega
    rw [List.take_append_of_le_length hlen] at hop
    exact hbody op (List.take_subset _ _ hop)
  · rw [if_neg hfl, List.append_nil] at hop
    exact hbody op (List.take_subset _ _ hop)

/-- C9: injecting an I/O failure at any point of the write sequence
leaves the original mesh document unchanged, leaves no temporary file
behind, and appends a per-mesh failure record instead of raising; a
fault-free run atomically replaces the original with the rewritten
document and also leaves no temporary file. -/
theorem C9_failure_preserves_original :
    (∀ (fs : FS) (lines : List ObjLine) (ms : List Label) (j : ℕ)
        (failed : List String), j < (write_ops lines ms).length →
      (update_obj_file fs lines ms (some j) failed).1.objFile = fs.objFile ∧
      (update_obj_file fs lines ms (some j) failed).1.tmpFile = none ∧
      (update_obj_file fs lines ms (some j) failed).2 =
        failed ++ ["OBJ update failed"]) ∧
    (∀ (fs : FS) (lines : List ObjLine) (ms : List Label)
        (failed : List String),
      (update_lines_run lines ms none).2 = true →
      (update_obj_file fs lines ms none failed).1.objFile =
        some (out_doc lines ms) ∧
      (update_obj_file fs lines ms none failed).1.tmpFile = none ∧
      (update_obj_file fs lines ms none failed).2 = failed) := by
  constructor
  · intro fs lines ms j failed hj
    refine ⟨?_, rfl, rfl⟩
    show (((write_ops lines ms).take j).foldl applyOp fs).objFile = fs.objFile
    exact foldl_no_replace_obj _ fs (write_ops_take_no_replace lines ms j hj)
  · intro fs lines ms failed hfl
    have hfold : (write_ops lines ms).foldl applyOp fs =
        ⟨some (out_doc lines ms), none⟩ := by
      unfold write_ops
      rw [if_pos hfl, List.foldl_append]
      rw [show List.foldl applyOp fs
          (FOp.openTempW :: (out_doc lines ms).map FOp.writeTemp) =
          List.foldl applyOp ⟨fs.objFile, some []⟩
            ((out_doc lines ms).map FOp.writeTemp) from rfl]
      rw [foldl_writeTemp (out_doc lines ms) fs.objFile []]
      show applyOp ⟨fs.objFile, some ([] ++ out_doc lines ms)⟩
        FOp.replaceTempToObj = _
      simp [applyOp]
    have hresult : update_obj_file fs lines ms none failed =
        ((write_ops lines ms).foldl applyOp fs, failed) := by
      unfold update_obj_file
      rw [if_pos hfl]
    rw [hresult, hfold]
    exact ⟨rfl, rfl, rfl⟩

/-- Mesh lines for the C9 witness. -/
def c9Lines : List ObjLine := [ObjLine.vline (0, 0, 0), ObjLine.fline [1, 2, 3]]

/-- C9 witness: a failure injected mid-write over a file system holding
the original document and a stale temporary file leaves the original
exactly as it was, removes the temporary file, and records the failure
after the earlier ones. -/
theorem C9_failure_preserves_original_w :
    (update_obj_file ⟨some c9Lines, some [ObjLine.otherL]⟩ c9Lines [Label.Roof]
        (some 2) ["earlier"]).1.objFile = some c9Lines ∧
    (update_obj_file ⟨some c9Lines, some [ObjLine.otherL]⟩ c9Lines [Label.Roof]
        (some 2) ["earlier"]).1.tmpFile = none ∧
    (update_obj_file ⟨some c9Lines, some [ObjLine.otherL]⟩ c9Lines [Label.Roof]
        (some 2) ["earlier"]).2 = ["earlier"] ++ ["OBJ update failed"] :=
  C9_failure_preserves_original.1 ⟨some c9Lines, some [ObjLine.otherL]⟩ c9Lines
    [Label.Roof] 2 ["earlier"] (by decide)

end Colorizer
